import Mathlib

/-!
Verification of the delta-neutral solver core against its specification.

The development shallowly embeds the TypeScript sources:
  - hyperliquid.service.ts   (order book, VWAP walk, freshness)
  - inventory-manager.service.ts (risk snapshot, quote direction, capacity)
  - quoter.service.ts / part_003 (the synchronous quote hot path)
  - hedger.service.ts + the bus handler in part_012 (settlement detection,
    hedging, expiry sweep), as a labelled transition system.

Numbers: the sources compute prices in IEEE double precision.  We idealize
finite arithmetic by exact rationals, but keep the non-finite behaviour the
code can actually reach (NaN from 0/0, comparisons with NaN being false,
falsy checks) via the carrier type F below, because several code paths
depend on it (division by a zero size, undefined request amounts).
-/

namespace Solver

/-- Model of a JavaScript number: an exact rational standing in for a finite
double, or NaN, or a signed infinity. -/
inductive F where
  | nan : F
  | inf (neg : Bool) : F
  | finite (q : ℚ) : F
deriving DecidableEq, Repr

namespace F

/-- Negation of a JS number. -/
def neg : F → F
  | .nan => .nan
  | .inf n => .inf (!n)
  | .finite q => .finite (-q)

/-- Addition of JS numbers (overflow to infinity is out of model). -/
def add : F → F → F
  | .nan, _ => .nan
  | _, .nan => .nan
  | .inf n1, .inf n2 => if n1 = n2 then .inf n1 else .nan
  | .inf n, .finite _ => .inf n
  | .finite _, .inf n => .inf n
  | .finite a, .finite b => .finite (a + b)

/-- Subtraction of JS numbers. -/
def sub (a b : F) : F := add a (neg b)

/-- Multiplication of JS numbers. -/
def mul : F → F → F
  | .nan, _ => .nan
  | _, .nan => .nan
  | .inf n1, .inf n2 => .inf (n1 != n2)
  | .inf n, .finite q => if q = 0 then .nan else .inf (n != decide (q < 0))
  | .finite q, .inf n => if q = 0 then .nan else .inf (n != decide (q < 0))
  | .finite a, .finite b => .finite (a * b)

/-- Division of JS numbers: x/0 is a signed infinity for x different from 0,
0/0 is NaN, x/inf is 0. -/
def div : F → F → F
  | .nan, _ => .nan
  | _, .nan => .nan
  | .inf _, .inf _ => .nan
  | .inf n, .finite q => .inf (n != decide (q < 0))
  | .finite _, .inf _ => .finite 0
  | .finite a, .finite b =>
    if b = 0 then (if a = 0 then .nan else .inf (decide (a < 0))) else .finite (a / b)

/-- Strict less-than on JS numbers; any comparison involving NaN is false. -/
def ltB : F → F → Bool
  | .nan, _ => false
  | _, .nan => false
  | .finite a, .finite b => decide (a < b)
  | .finite _, .inf n => !n
  | .inf n, .finite _ => n
  | .inf n1, .inf n2 => n1 && !n2

/-- Non-strict comparison on JS numbers; false whenever NaN is involved. -/
def leB : F → F → Bool
  | .nan, _ => false
  | _, .nan => false
  | .finite a, .finite b => decide (a ≤ b)
  | .finite _, .inf n => !n
  | .inf n, .finite _ => n
  | .inf n1, .inf n2 => !(!n1 && n2)

/-- Math.min: NaN if either argument is NaN, else the smaller. -/
def minF (a b : F) : F :=
  match a, b with
  | .nan, _ => .nan
  | _, .nan => .nan
  | x, y => if ltB y x then y else x

/-- JS falsiness of a number: 0 and NaN are falsy, infinities are truthy. -/
def falsy : F → Bool
  | .nan => true
  | .inf _ => false
  | .finite q => q == 0

/-- Math.abs. -/
def absF : F → F
  | .nan => .nan
  | .inf _ => .inf false
  | .finite q => .finite |q|

/-- Math.floor extended to non-finite values (identity there, as in JS). -/
def floorF : F → F
  | .nan => .nan
  | .inf n => .inf n
  | .finite q => .finite (Int.floor q)

/-- Math.ceil extended to non-finite values (identity there, as in JS). -/
def ceilF : F → F
  | .nan => .nan
  | .inf n => .inf n
  | .finite q => .finite (Int.ceil q)

/-- Coercion of an optional parsed amount: an absent field coerces to NaN
(the JS unary plus of undefined). -/
def ofOpt : Option ℚ → F
  | none => .nan
  | some q => .finite q

end F

/-- One order-book level, price and size parsed from the venue strings. -/
structure Level where
  px : ℚ
  sz : ℚ
deriving DecidableEq, Repr

/-- The L2 book: levels[0] are bids, levels[1] are asks. -/
structure L2Book where
  bids : List Level
  asks : List Level
deriving DecidableEq, Repr

/-- State of HyperliquidService relevant to pricing: the last L2 snapshot
and its update timestamp in milliseconds. -/
structure HLState where
  l2Book : Option L2Book
  lastBookUpdateMs : ℤ
deriving DecidableEq, Repr

inductive Side where
  | bid : Side
  | ask : Side
deriving DecidableEq, Repr

/-- Errors thrown by HyperliquidService.getHedgePrice. -/
inductive HLErr where
  | bookUnavailable : HLErr
  | bookStale : HLErr
  | insufficientLiquidity : HLErr
deriving DecidableEq, Repr

/-- The level walk of getHedgePrice: at each level take min(level size,
remaining), accumulate notional, and break once remaining is at most 0. -/
def walkLevels : List Level → F → F → F × F
  | [], value, sizeRemaining => (value, sizeRemaining)
  | l :: rest, value, sizeRemaining =>
    let take := F.minF (.finite l.sz) sizeRemaining
    let value2 := F.add value (F.mul take (.finite l.px))
    let rem2 := F.sub sizeRemaining take
    if F.leB rem2 (.finite 0) then (value2, rem2) else walkLevels rest value2 rem2

/-- Per-token configuration entry from btc-only.config.ts. -/
structure TokenCfg where
  symbol : String
  decimals : ℕ
  pow10 : ℚ
deriving DecidableEq, Repr

/-- The BTC_ONLY_CONFIG surface used by the embedded services.  Token tables
are association lists keyed by token id; numeric options are the parsed
environment values. -/
structure Config where
  btcTokens : List (String × TokenCfg)
  usdTokens : List (String × TokenCfg)
  MAX_BTC_INVENTORY : ℚ
  MIN_USDT_RESERVE : ℚ
  TARGET_SPREAD_BIPS : ℚ
  MIN_MARGIN_THRESHOLD : ℚ
  MAX_NEGATIVE_FUNDING_RATE : ℚ
  MIN_TRADE_SIZE_BTC : ℚ
  MAX_TRADE_SIZE_BTC : ℚ
  MAX_ORDERBOOK_AGE_MS : ℤ
  HEDGING_ENABLED : Bool
deriving Repr

/-- BTC_ONLY_CONFIG.getBtcTokenConfig: O(1) map lookup by token id. -/
def Config.getBtcTokenConfig (cfg : Config) (tokenId : String) : Option TokenCfg :=
  (cfg.btcTokens.find? (fun p => p.1 == tokenId)).map (·.2)

/-- BTC_ONLY_CONFIG.getUsdTokenConfig. -/
def Config.getUsdTokenConfig (cfg : Config) (tokenId : String) : Option TokenCfg :=
  (cfg.usdTokens.find? (fun p => p.1 == tokenId)).map (·.2)

/-- BTC_ONLY_CONFIG.isBtcToken. -/
def Config.isBtcToken (cfg : Config) (tokenId : String) : Bool :=
  (cfg.getBtcTokenConfig tokenId).isSome

/-- Side selection in getHedgePrice: levels[0] for bid, levels[1] for ask. -/
def sideLevels (book : L2Book) (side : Side) : List Level :=
  match side with
  | .bid => book.bids
  | .ask => book.asks

/-- HyperliquidService.getHedgePrice: walk the requested side of the book,
throwing on a missing book, a stale book, or a residual above the 1e-6
tolerance; otherwise return accumulated notional divided by the requested
size.  The division is IEEE division, so a zero size yields NaN or infinity
rather than an error. -/
def getHedgePrice (cfg : Config) (st : HLState) (now : ℤ) (side : Side) (size : F) :
    Except HLErr F :=
  match st.l2Book with
  | none => .error .bookUnavailable
  | some book =>
    if now - st.lastBookUpdateMs > cfg.MAX_ORDERBOOK_AGE_MS then .error .bookStale
    else
      let vr := walkLevels (sideLevels book side) (.finite 0) size
      if F.ltB (.finite (1 / 1000000)) vr.2 then .error .insufficientLiquidity
      else .ok (F.div vr.1 size)

/-- HyperliquidService.isOrderbookFresh. -/
def isOrderbookFresh (cfg : Config) (st : HLState) (now : ℤ) : Bool :=
  st.l2Book.isSome && decide (now - st.lastBookUpdateMs ≤ cfg.MAX_ORDERBOOK_AGE_MS)

/-- RiskSnapshot as maintained by InventoryStateService. -/
structure RiskSnapshotE where
  updatedAt : ℤ
  margin : ℚ
  btcPos : ℚ
  fundingRate : ℚ
  btcBalance : ℚ
  usdtBalance : ℚ
deriving DecidableEq, Repr

/-- The four quote directions. -/
inductive Direction where
  | BUY_BTC_ONLY : Direction
  | SELL_BTC_ONLY : Direction
  | BOTH : Direction
  | NONE : Direction
deriving DecidableEq, Repr

/-- Hedge direction on the perpetual venue. -/
inductive HedgeDir where
  | short : HedgeDir
  | long : HedgeDir
deriving DecidableEq, Repr

/-- Mutable state of InventoryStateService: the emergency flag, the direction
cached by the last successful refresh, and the current risk snapshot. -/
structure InvState where
  emergencyMode : Bool
  cachedDirection : Direction
  riskSnapshot : Option RiskSnapshotE
deriving DecidableEq, Repr

/-- InventoryStateService.isSnapshotFresh (SNAPSHOT_MAX_AGE_MS = 30000). -/
def isSnapshotFresh (inv : InvState) (now : ℤ) : Bool :=
  match inv.riskSnapshot with
  | none => false
  | some s => decide (now - s.updatedAt < 30000)

/-- InventoryStateService.computeDirection, evaluated on an emergency flag
and a snapshot (the fields it reads from this). -/
def computeDirection (cfg : Config) (emergencyMode : Bool)
    (snap : Option RiskSnapshotE) : Direction :=
  if emergencyMode then .SELL_BTC_ONLY
  else
    match snap with
    | none => .NONE
    | some s =>
      if s.margin < cfg.MIN_MARGIN_THRESHOLD then .NONE
      else
        let canBuyBtc := s.usdtBalance > cfg.MIN_USDT_RESERVE ∧
          s.btcBalance < cfg.MAX_BTC_INVENTORY
        let canSellBtc := s.btcBalance > cfg.MIN_TRADE_SIZE_BTC
        if canBuyBtc ∧ canSellBtc then .BOTH
        else if canBuyBtc then .BUY_BTC_ONLY
        else if canSellBtc then .SELL_BTC_ONLY
        else .NONE

/-- InventoryStateService.getQuoteDirection: emergency wins, a stale or
missing snapshot pauses quoting, otherwise the direction cached at the last
successful refresh is returned. -/
def getQuoteDirection (inv : InvState) (now : ℤ) : Direction :=
  if inv.emergencyMode then .SELL_BTC_ONLY
  else if !(isSnapshotFresh inv now) then .NONE
  else inv.cachedDirection

/-- The successful path of InventoryStateService.refreshRiskSnapshot: write
a new snapshot and re-cache the direction computed from it under the
emergency flag current at refresh time. -/
def refreshRiskSnapshot (cfg : Config) (inv : InvState) (snap : RiskSnapshotE) : InvState :=
  { inv with
    riskSnapshot := some snap
    cachedDirection := computeDirection cfg inv.emergencyMode (some snap) }

/-- InventoryStateService.checkPositionCapacity: project the perpetual
position by the trade size and compare its magnitude against the cap;
returns false when no snapshot exists. -/
def checkPositionCapacity (cfg : Config) (inv : InvState) (direction : HedgeDir)
    (sizeBtc : F) : Bool :=
  match inv.riskSnapshot with
  | none => false
  | some s =>
    let projectedPos := F.add (.finite s.btcPos)
      (if direction = .short then F.neg sizeBtc else sizeBtc)
    if F.ltB (.finite cfg.MAX_BTC_INVENTORY) (F.absF projectedPos) then false else true

/-- InventoryStateService.getFundingRate: the cached snapshot rate, or 0
when no snapshot has ever been produced. -/
def getFundingRate (inv : InvState) : ℚ :=
  match inv.riskSnapshot with
  | none => 0
  | some s => s.fundingRate

/-- The quoter rejection reasons (QuoteRejectionReason). -/
inductive Rejection where
  | orderbook_stale : Rejection
  | invalid_token_pair : Rejection
  | size_out_of_bounds : Rejection
  | insufficient_liquidity : Rejection
  | direction_not_allowed : Rejection
  | position_capacity_exceeded : Rejection
  | funding_rate_too_negative : Rejection
  | no_reference_price : Rejection
deriving DecidableEq, Repr

/-- A quote request: token ids plus at most one of the two raw integer
amounts (an absent field is the JS undefined). -/
structure QuoteRequestE where
  token_in : String
  token_out : String
  amount_in : Option ℚ
  amount_out : Option ℚ
deriving DecidableEq, Repr

/-- The QuoteResult returned on success.  Amount fields carry the JS number
that the source stringifies (an integer after floor or ceil when finite). -/
structure QuoteResultE where
  amount_out : Option F
  amount_in : Option F
  btcSize : F
  weAreBuyingBtc : Bool
  btcTokenId : String
  usdTokenId : String
  btcDecimals : ℕ
  usdDecimals : ℕ
  isExactOut : Bool
deriving DecidableEq, Repr

/-- Result of getQuote: either undefined with a recorded rejection reason,
or a quote. -/
inductive QuoteOutcome where
  | reject (r : Rejection) : QuoteOutcome
  | ok (q : QuoteResultE) : QuoteOutcome
deriving DecidableEq, Repr

/-- Step 4 of QuoterService.getQuote: compute btcSize and the reference
price per the mode table, with the probe-and-refine loop on the USD side.
Returns the pair (btcSize, referencePrice) or an early rejection; errors of
getHedgePrice propagate because the source has no try/catch here. -/
def computeSizeAndRef (cfg : Config) (hl : HLState) (now : ℤ)
    (isExactOut isBtcIn isBtcOut : Bool) (amount_in amount_out : Option ℚ)
    (btcPow10 usdPow10 : ℚ) : Except HLErr (Rejection ⊕ (F × F)) :=
  if isExactOut then
    let amountOutFloat := F.div (F.ofOpt amount_out)
      (.finite (if isBtcOut then btcPow10 else usdPow10))
    if isBtcOut then
      match getHedgePrice cfg hl now .ask amountOutFloat with
      | .error e => .error e
      | .ok r => .ok (.inr (amountOutFloat, r))
    else
      match getHedgePrice cfg hl now .bid (.finite (1 / 1000)) with
      | .error e => .error e
      | .ok probePrice =>
        if probePrice.falsy then .ok (.inl .insufficient_liquidity)
        else
          let estimatedSize := F.div amountOutFloat probePrice
          if F.ltB estimatedSize (.finite cfg.MIN_TRADE_SIZE_BTC) ||
              F.ltB (.finite cfg.MAX_TRADE_SIZE_BTC) estimatedSize then
            .ok (.inl .size_out_of_bounds)
          else
            match getHedgePrice cfg hl now .bid estimatedSize with
            | .error e => .error e
            | .ok r =>
              if r.falsy then .ok (.inl .insufficient_liquidity)
              else .ok (.inr (F.div amountOutFloat r, r))
  else
    let amountInFloat := F.div (F.ofOpt amount_in)
      (.finite (if isBtcIn then btcPow10 else usdPow10))
    if isBtcIn then
      match getHedgePrice cfg hl now .bid amountInFloat with
      | .error e => .error e
      | .ok r => .ok (.inr (amountInFloat, r))
    else
      match getHedgePrice cfg hl now .ask (.finite (1 / 1000)) with
      | .error e => .error e
      | .ok probePrice =>
        if probePrice.falsy then .ok (.inl .insufficient_liquidity)
        else
          let estimatedSize := F.div amountInFloat probePrice
          if F.ltB estimatedSize (.finite cfg.MIN_TRADE_SIZE_BTC) ||
              F.ltB (.finite cfg.MAX_TRADE_SIZE_BTC) estimatedSize then
            .ok (.inl .size_out_of_bounds)
          else
            match getHedgePrice cfg hl now .ask estimatedSize with
            | .error e => .error e
            | .ok r =>
              if r.falsy then .ok (.inl .insufficient_liquidity)
              else .ok (.inr (F.div amountInFloat r, r))

/-- Step 6 of QuoterService.getQuote: apply the spread to the reference
price and round in the solver's favor (ceil on amount_in, floor on
amount_out), converting with the pre-computed pow10 of the computed side's
token. -/
def finalizeQuote (cfg : Config) (req : QuoteRequestE)
    (isExactOut isBtcIn isBtcOut : Bool) (btcCfg usdCfg : TokenCfg)
    (btcSize referencePrice : F) : QuoteResultE :=
  let spread := cfg.TARGET_SPREAD_BIPS / 10000
  let weAreBuyingBtc := isBtcIn
  let btcTokenId := if isBtcIn then req.token_in else req.token_out
  let usdTokenId := if isBtcIn then req.token_out else req.token_in
  if isExactOut then
    let amountOutFloat := F.div (F.ofOpt req.amount_out)
      (.finite (if isBtcOut then btcCfg.pow10 else usdCfg.pow10))
    let amountIn :=
      if weAreBuyingBtc then
        F.div amountOutFloat (F.mul referencePrice (.finite (1 - spread)))
      else
        F.mul amountOutFloat (F.mul referencePrice (.finite (1 + spread)))
    let pow10In := if isBtcIn then btcCfg.pow10 else usdCfg.pow10
    let amountInRaw := F.ceilF (F.mul amountIn (.finite pow10In))
    { amount_out := none, amount_in := some amountInRaw, btcSize,
      weAreBuyingBtc, btcTokenId, usdTokenId,
      btcDecimals := btcCfg.decimals, usdDecimals := usdCfg.decimals,
      isExactOut := true }
  else
    let amountInFloat := F.div (F.ofOpt req.amount_in)
      (.finite (if isBtcIn then btcCfg.pow10 else usdCfg.pow10))
    let amountOut :=
      if weAreBuyingBtc then
        F.mul amountInFloat (F.mul referencePrice (.finite (1 - spread)))
      else
        F.div amountInFloat (F.mul referencePrice (.finite (1 + spread)))
    let pow10Out := if isBtcOut then btcCfg.pow10 else usdCfg.pow10
    let amountOutRaw := F.floorF (F.mul amountOut (.finite pow10Out))
    { amount_out := some amountOutRaw, amount_in := none, btcSize,
      weAreBuyingBtc, btcTokenId, usdTokenId,
      btcDecimals := btcCfg.decimals, usdDecimals := usdCfg.decimals,
      isExactOut := false }

/-- Steps 4b to 6 of QuoterService.getQuote: the no_reference_price falsy
guard, the final size validation, the direction, capacity and funding gates,
then spread application and solver-favorable rounding. -/
def gateAndFinalize (cfg : Config) (inv : InvState) (now : ℤ) (req : QuoteRequestE)
    (isExactOut isBtcIn isBtcOut : Bool) (btcCfg usdCfg : TokenCfg)
    (btcSize referencePrice : F) : QuoteOutcome :=
  if referencePrice.falsy then .reject .no_reference_price
  else if F.ltB btcSize (.finite cfg.MIN_TRADE_SIZE_BTC) ||
      F.ltB (.finite cfg.MAX_TRADE_SIZE_BTC) btcSize then
    .reject .size_out_of_bounds
  else
    let weAreBuyingBtc := isBtcIn
    let hedgeDirection := if weAreBuyingBtc then HedgeDir.short else HedgeDir.long
    let direction := getQuoteDirection inv now
    let hasCapacity := checkPositionCapacity cfg inv hedgeDirection btcSize
    let fundingRate := if weAreBuyingBtc then getFundingRate inv else 0
    if weAreBuyingBtc ∧ direction ≠ .BUY_BTC_ONLY ∧ direction ≠ .BOTH then
      .reject .direction_not_allowed
    else if ¬(weAreBuyingBtc = true) ∧ direction ≠ .SELL_BTC_ONLY ∧ direction ≠ .BOTH then
      .reject .direction_not_allowed
    else if !hasCapacity then .reject .position_capacity_exceeded
    else if weAreBuyingBtc ∧ fundingRate < cfg.MAX_NEGATIVE_FUNDING_RATE then
      .reject .funding_rate_too_negative
    else
      .ok (finalizeQuote cfg req isExactOut isBtcIn isBtcOut btcCfg usdCfg
        btcSize referencePrice)

/-- QuoterService.getQuote (the exact-in and exact-out variant of
part_003): freshness gate first, then token-pair validation, size and
reference computation, risk gates, and final pricing.  An exception from
getHedgePrice escapes as an error value because this variant has no
try/catch. -/
def getQuote (cfg : Config) (hl : HLState) (inv : InvState) (now : ℤ)
    (req : QuoteRequestE) : Except HLErr QuoteOutcome :=
  if !(isOrderbookFresh cfg hl now) then .ok (.reject .orderbook_stale)
  else
    let isExactOut := req.amount_in.isNone && req.amount_out.isSome
    match (cfg.getBtcTokenConfig req.token_in).orElse
            (fun _ => cfg.getBtcTokenConfig req.token_out),
          (cfg.getUsdTokenConfig req.token_in).orElse
            (fun _ => cfg.getUsdTokenConfig req.token_out) with
    | some btcCfg, some usdCfg =>
      let isBtcIn := cfg.isBtcToken req.token_in
      let isBtcOut := cfg.isBtcToken req.token_out
      match computeSizeAndRef cfg hl now isExactOut isBtcIn isBtcOut
        req.amount_in req.amount_out btcCfg.pow10 usdCfg.pow10 with
      | .error e => .error e
      | .ok (.inl r) => .ok (.reject r)
      | .ok (.inr p) =>
        .ok (gateAndFinalize cfg inv now req isExactOut isBtcIn isBtcOut
          btcCfg usdCfg p.1 p.2)
    | _, _ => .ok (.reject .invalid_token_pair)

/-- A pending quote tracked by HedgerService, keyed by nonce. -/
structure PendingE where
  nonce : String
  deadlineMs : ℤ
deriving DecidableEq, Repr

/-- A cached quote in the bus handler, keyed by quote hash. -/
structure CacheE where
  quoteHash : String
  nonce : String
  deadlineMs : ℤ
deriving DecidableEq, Repr

/-- Control state of the poll task: idle, or suspended mid-poll holding the
snapshot of nonce-check results still to be processed (the await on the
batched wasNonceUsed calls and on each executeHedge are the suspension
points at which the bus handler can interleave). -/
inductive PollPC where
  | idle : PollPC
  | busy (results : List (PendingE × Bool)) : PollPC
deriving DecidableEq, Repr

/-- Combined state of HedgerService and the bus handler of part_012.
hedgeCount is a ghost counter of executeHedge invocations per nonce. -/
structure HedgeSys where
  pendingQuotes : List PendingE
  quoteCache : List CacheE
  hedgedNonces : List String
  hedgeCount : String → ℕ
  poll : PollPC
  emergencyMode : Bool

/-- The expiry sweep at the top of HedgerService.poll: drop every record
whose deadline plus the 30 s safety buffer has passed. -/
def sweepExpired (now : ℤ) (pending : List PendingE) : List PendingE :=
  pending.filter (fun p => !(decide (now > p.deadlineMs + 30000)))

/-- HedgerService.markAsHedged: insert into the set, then trim the oldest
100 entries when the size exceeds 500. -/
def markAsHedged (hedged : List String) (nonce : String) : List String :=
  let h := if hedged.contains nonce then hedged else hedged ++ [nonce]
  if h.length > 500 then h.drop 100 else h

/-- Ghost-counter bump for one nonce. -/
def bumpCount (f : String → ℕ) (nonce : String) : String → ℕ :=
  fun n => if n = nonce then f n + 1 else f n

/-- Map.delete on the nonce-keyed pending map. -/
def delPending (pending : List PendingE) (nonce : String) : List PendingE :=
  pending.filter (fun p => !(p.nonce == nonce))

/-- Map.delete on the hash-keyed quote cache. -/
def delCache (cache : List CacheE) (quoteHash : String) : List CacheE :=
  cache.filter (fun c => !(c.quoteHash == quoteHash))

/-- Transition labels: the poll task phases, the quote_status handler, quote
tracking after a publish ack, and the reconnect cleanup.  Oracles carried on
labels: the chain answers for wasNonceUsed (an RPC failure is reported as
not-used by the source) and whether executeHedge succeeds. -/
inductive HLabel where
  | pollStart (now : ℤ) (used : String → Bool) : HLabel
  | pollProcess (hedgeOk : Bool) : HLabel
  | pollFinish : HLabel
  | eventSettle (quoteHash : String) (hedgeOk : Bool) : HLabel
  | eventSettleMiss (quoteHash : String) : HLabel
  | track (nonce quoteHash : String) (deadlineMs : ℤ) : HLabel
  | wsClose (now : ℤ) : HLabel

/-- Small-step semantics of the settlement and hedging pipeline.  Each step
is a run of the corresponding source code between suspension points; the
consecutive-RPC-failure accounting is omitted as it only writes the
emergency flag, which no modelled guard reads. -/
inductive HStep (cfg : Config) : HLabel → HedgeSys → HedgeSys → Prop where
  /-- HedgerService.poll entry (processing flag free): sweep expired
  records, then snapshot the pending map and suspend on the nonce checks. -/
  | pollStart (now : ℤ) (used : String → Bool) (s : HedgeSys) (h : s.poll = .idle) :
      HStep cfg (.pollStart now used) s
        { s with
          pendingQuotes := sweepExpired now s.pendingQuotes
          poll := .busy ((sweepExpired now s.pendingQuotes).map (fun p => (p, used p.nonce))) }
  /-- Processing one nonce-check result that came back not-used. -/
  | pollSkipUnused (p : PendingE) (rest : List (PendingE × Bool)) (ok : Bool)
      (s : HedgeSys) (h : s.poll = .busy ((p, false) :: rest)) :
      HStep cfg (.pollProcess ok) s { s with poll := .busy rest }
  /-- Processing a used nonce that is already in the hedged set: delete the
  record and skip. -/
  | pollAlreadyHedged (p : PendingE) (rest : List (PendingE × Bool)) (ok : Bool)
      (s : HedgeSys) (h : s.poll = .busy ((p, true) :: rest))
      (hh : s.hedgedNonces.contains p.nonce = true) :
      HStep cfg (.pollProcess ok) s
        { s with pendingQuotes := delPending s.pendingQuotes p.nonce, poll := .busy rest }
  /-- Processing a used nonce with hedging disabled: mark hedged without
  calling the venue. -/
  | pollHedgeDisabled (p : PendingE) (rest : List (PendingE × Bool)) (ok : Bool)
      (s : HedgeSys) (h : s.poll = .busy ((p, true) :: rest))
      (hh : s.hedgedNonces.contains p.nonce = false)
      (hd : cfg.HEDGING_ENABLED = false) :
      HStep cfg (.pollProcess ok) s
        { s with pendingQuotes := delPending s.pendingQuotes p.nonce
                 hedgedNonces := markAsHedged s.hedgedNonces p.nonce
                 poll := .busy rest }
  /-- Processing a used nonce: executeHedge succeeds, the nonce is marked
  hedged and emergency mode is cleared. -/
  | pollHedgeOk (p : PendingE) (rest : List (PendingE × Bool))
      (s : HedgeSys) (h : s.poll = .busy ((p, true) :: rest))
      (hh : s.hedgedNonces.contains p.nonce = false)
      (hd : cfg.HEDGING_ENABLED = true) :
      HStep cfg (.pollProcess true) s
        { s with pendingQuotes := delPending s.pendingQuotes p.nonce
                 hedgedNonces := markAsHedged s.hedgedNonces p.nonce
                 hedgeCount := bumpCount s.hedgeCount p.nonce
                 poll := .busy rest
                 emergencyMode := false }
  /-- Processing a used nonce: executeHedge fails, the nonce is NOT marked
  hedged and emergency mode trips. -/
  | pollHedgeFail (p : PendingE) (rest : List (PendingE × Bool))
      (s : HedgeSys) (h : s.poll = .busy ((p, true) :: rest))
      (hh : s.hedgedNonces.contains p.nonce = false)
      (hd : cfg.HEDGING_ENABLED = true) :
      HStep cfg (.pollProcess false) s
        { s with pendingQuotes := delPending s.pendingQuotes p.nonce
                 hedgeCount := bumpCount s.hedgeCount p.nonce
                 poll := .busy rest
                 emergencyMode := true }
  /-- End of the results loop. -/
  | pollFinish (s : HedgeSys) (h : s.poll = .busy []) :
      HStep cfg .pollFinish s { s with poll := .idle }
  /-- quote_status settlement event matching our cache with hedging
  disabled: remove from both cache and pending map, do not hedge, and (per
  part_012) do NOT mark the nonce hedged. -/
  | eventSettleDisabled (quoteHash : String) (c : CacheE) (ok : Bool) (s : HedgeSys)
      (h : s.quoteCache.find? (fun e => e.quoteHash == quoteHash) = some c)
      (hd : cfg.HEDGING_ENABLED = false) :
      HStep cfg (.eventSettle quoteHash ok) s
        { s with quoteCache := delCache s.quoteCache quoteHash
                 pendingQuotes := delPending s.pendingQuotes c.nonce }
  /-- quote_status settlement event matching our cache: remove from cache
  and pending map, then executeHedge.  The handler neither consults nor
  updates hedgedNonces. -/
  | eventSettleHit (quoteHash : String) (c : CacheE) (s : HedgeSys)
      (h : s.quoteCache.find? (fun e => e.quoteHash == quoteHash) = some c)
      (hd : cfg.HEDGING_ENABLED = true) :
      HStep cfg (.eventSettle quoteHash true) s
        { s with quoteCache := delCache s.quoteCache quoteHash
                 pendingQuotes := delPending s.pendingQuotes c.nonce
                 hedgeCount := bumpCount s.hedgeCount c.nonce }
  /-- quote_status settlement event whose hedge fails: emergency mode
  trips; still no hedged-set update. -/
  | eventSettleHitFail (quoteHash : String) (c : CacheE) (s : HedgeSys)
      (h : s.quoteCache.find? (fun e => e.quoteHash == quoteHash) = some c)
      (hd : cfg.HEDGING_ENABLED = true) :
      HStep cfg (.eventSettle quoteHash false) s
        { s with quoteCache := delCache s.quoteCache quoteHash
                 pendingQuotes := delPending s.pendingQuotes c.nonce
                 hedgeCount := bumpCount s.hedgeCount c.nonce
                 emergencyMode := true }
  /-- quote_status event for a hash we never published: log-only. -/
  | eventSettleMiss (quoteHash : String) (s : HedgeSys)
      (h : s.quoteCache.find? (fun e => e.quoteHash == quoteHash) = none) :
      HStep cfg (.eventSettleMiss quoteHash) s s
  /-- Tracking a quote after a successful publish ack: insert into the
  hash-keyed cache and the nonce-keyed pending map. -/
  | track (nonce quoteHash : String) (deadlineMs : ℤ) (s : HedgeSys) :
      HStep cfg (.track nonce quoteHash deadlineMs) s
        { s with
          quoteCache := delCache s.quoteCache quoteHash ++ [⟨quoteHash, nonce, deadlineMs⟩]
          pendingQuotes := delPending s.pendingQuotes nonce ++ [⟨nonce, deadlineMs⟩] }
  /-- WebSocket close: prune only cache entries 60 s past their deadline
  (the cache is otherwise kept for potential late quote_status events). -/
  | wsClose (now : ℤ) (s : HedgeSys) :
      HStep cfg (.wsClose now) s
        { s with quoteCache :=
            s.quoteCache.filter (fun c => !(decide (now > c.deadlineMs + 60000))) }

/-- InventoryStateService.setEmergencyMode. -/
def setEmergencyMode (inv : InvState) (enabled : Bool) : InvState :=
  { inv with emergencyMode := enabled }

/-- Specification-side greedy fills: the take at each level is the minimum
of the level size and the remaining requested size, walked in list order.
Used to state VWAP correctness independently of the loop in the source. -/
def specTakes : ℚ → List Level → List (ℚ × ℚ)
  | _, [] => []
  | remaining, l :: rest =>
    let t := min l.sz remaining
    (t, l.px) :: specTakes (remaining - t) rest

/-- Specification-side accumulated notional of the greedy walk. -/
def specNotional (size : ℚ) (levels : List Level) : ℚ :=
  ((specTakes size levels).map (fun p => p.1 * p.2)).sum

/-- Specification-side filled quantity of the greedy walk. -/
def specFilled (size : ℚ) (levels : List Level) : ℚ :=
  ((specTakes size levels).map (fun p => p.1)).sum

/-- The claim's decision sequence for the quote direction, evaluated
entirely at call time: emergency, then snapshot freshness, then margin,
then the can-buy/can-sell combination. -/
def specQuoteDirection (cfg : Config) (inv : InvState) (now : ℤ) : Direction :=
  if inv.emergencyMode then .SELL_BTC_ONLY
  else
    match inv.riskSnapshot with
    | none => .NONE
    | some s =>
      if ¬(now - s.updatedAt < 30000) then .NONE
      else if s.margin < cfg.MIN_MARGIN_THRESHOLD then .NONE
      else
        let canBuyBtc := s.usdtBalance > cfg.MIN_USDT_RESERVE ∧
          s.btcBalance < cfg.MAX_BTC_INVENTORY
        let canSellBtc := s.btcBalance > cfg.MIN_TRADE_SIZE_BTC
        if canBuyBtc ∧ canSellBtc then .BOTH
        else if canBuyBtc then .BUY_BTC_ONLY
        else if canSellBtc then .SELL_BTC_ONLY
        else .NONE

/-- A nonce is gone from the polling path: absent from the pending map and
from the snapshot of any in-flight poll. -/
def nonceGone (n : String) (s : HedgeSys) : Prop :=
  (∀ p ∈ s.pendingQuotes, p.nonce ≠ n) ∧
  (∀ results, s.poll = .busy results → ∀ pr ∈ results, pr.1.nonce ≠ n)

/-- A labelled step avoids a nonce when it is neither a re-track of that
nonce nor a settlement event resolving to it through the quote cache. -/
def avoidsNonce (n : String) (lbl : HLabel) (s : HedgeSys) : Prop :=
  (∀ h dl, lbl ≠ .track n h dl) ∧
  (∀ h ok, lbl = .eventSettle h ok →
    ∀ c, s.quoteCache.find? (fun e => e.quoteHash == h) = some c → c.nonce ≠ n)

/-- One transition that avoids the given nonce. -/
def stepAvoiding (cfg : Config) (n : String) (s s2 : HedgeSys) : Prop :=
  ∃ lbl, HStep cfg lbl s s2 ∧ avoidsNonce n lbl s

/-- Concrete configuration with the default values of btc-only.config.ts
(2000 ms book age, 200 bips spread, 0.0001 to 1.0 BTC size bounds, -0.0005
funding floor, 5 BTC inventory cap, 2000 USD reserve, 1000 margin floor). -/
def cfgD : Config :=
  { btcTokens := [("btc.omft.near", ⟨"BTC", 8, 100000000⟩)]
    usdTokens := [("eth-0xa0b86991c6218b36c1d19d4a2e9eb0ce3606eb48.omft.near",
      ⟨"USDC", 6, 1000000⟩)]
    MAX_BTC_INVENTORY := 5
    MIN_USDT_RESERVE := 2000
    TARGET_SPREAD_BIPS := 200
    MIN_MARGIN_THRESHOLD := 1000
    MAX_NEGATIVE_FUNDING_RATE := -1/2000
    MIN_TRADE_SIZE_BTC := 1/10000
    MAX_TRADE_SIZE_BTC := 1
    MAX_ORDERBOOK_AGE_MS := 2000
    HEDGING_ENABLED := true }

/-- Short alias for the configured USDC token id. -/
def usdcId : String := "eth-0xa0b86991c6218b36c1d19d4a2e9eb0ce3606eb48.omft.near"

/-- A fresh two-sided book: one bid at 100000 of size 10, one ask at 100100
of size 10, updated at t = 1000 ms. -/
def hlD : HLState :=
  { l2Book := some ⟨[⟨100000, 10⟩], [⟨100100, 10⟩]⟩, lastBookUpdateMs := 1000 }

/-- A thin book that cannot cover 0.01 BTC on the bid side. -/
def hlThin : HLState :=
  { l2Book := some ⟨[⟨100000, 1/2000⟩], []⟩, lastBookUpdateMs := 1000 }

/-- A healthy risk snapshot taken at t = 900 ms. -/
def snapD : RiskSnapshotE :=
  { updatedAt := 900, margin := 5000, btcPos := 0, fundingRate := 0,
    btcBalance := 1, usdtBalance := 10000 }

/-- Inventory state allowing both directions. -/
def invD : InvState :=
  { emergencyMode := false, cachedDirection := .BOTH, riskSnapshot := some snapD }

/-- Inventory state before any snapshot refresh. -/
def invNone : InvState :=
  { emergencyMode := false, cachedDirection := .NONE, riskSnapshot := none }

/-- The S1 request: exact-in, 0.01 BTC for USDC. -/
def reqS1 : QuoteRequestE :=
  { token_in := "btc.omft.near", token_out := usdcId,
    amount_in := some 1000000, amount_out := none }

/-- The quote the embedding produces for S1 under cfgD, hlD, invD. -/
def qS1 : QuoteResultE :=
  { amount_out := some (.finite 980000000), amount_in := none,
    btcSize := .finite (1/100), weAreBuyingBtc := true,
    btcTokenId := "btc.omft.near", usdTokenId := usdcId,
    btcDecimals := 8, usdDecimals := 6, isExactOut := false }

/-- Zero ghost hedge counter. -/
def count0 : String → ℕ := fun _ => 0

/-- Initial hedger state with one tracked quote: nonce n1, hash h1,
deadline 100000 ms. -/
def sysD : HedgeSys :=
  { pendingQuotes := [⟨"n1", 100000⟩], quoteCache := [⟨"h1", "n1", 100000⟩],
    hedgedNonces := [], hedgeCount := count0, poll := .idle,
    emergencyMode := false }

/-- sysD after the poll task snapshots its pending nonce (chain reports the
nonce used) and suspends on the batched RPC await. -/
def sysD1 : HedgeSys :=
  { sysD with poll := .busy [(⟨"n1", 100000⟩, true)] }

/-- sysD1 after the settlement event fires for h1 during the poll's
suspension: both maps cleared, one hedge executed, nothing marked hedged. -/
def sysD2 : HedgeSys :=
  { sysD1 with
    pendingQuotes := []
    quoteCache := []
    hedgeCount := bumpCount count0 "n1" }

/-- sysD2 after the resumed poll processes its stale snapshot entry: the
idempotency check misses (the event path never marks), so a second hedge
executes. -/
def sysD3 : HedgeSys :=
  { sysD2 with
    hedgedNonces := markAsHedged [] "n1"
    hedgeCount := bumpCount (bumpCount count0 "n1") "n1"
    poll := .busy [] }

/-- sysD after an expiry sweep at t = 140000 ms (past deadline + 30 s):
the pending record is gone but the quote cache entry survives. -/
def sysE1 : HedgeSys :=
  { sysD with pendingQuotes := [], poll := .busy [] }

/-- sysE1 with the poll finished. -/
def sysE2 : HedgeSys :=
  { sysE1 with poll := .idle }

/-- sysE2 after a late settlement event for h1: a hedge fires even though
expiry already removed the record. -/
def sysE3 : HedgeSys :=
  { sysE2 with quoteCache := [], hedgeCount := bumpCount count0 "n1" }

/-- Inventory state in emergency mode before any snapshot. -/
def invE : InvState :=
  { emergencyMode := true, cachedDirection := .NONE, riskSnapshot := none }

/-- The inventory state reached by refreshing the snapshot while emergency
mode is on and then clearing emergency mode: the cached direction still
embeds the refresh-time emergency flag. -/
def invC : InvState := setEmergencyMode (refreshRiskSnapshot cfgD invE snapD) false

/-- The inventory state right after a refresh with emergency mode off. -/
def invW : InvState := refreshRiskSnapshot cfgD invNone snapD

/-- A stale book: last update 11.5 s before the reference call time 1500. -/
def hlStale : HLState :=
  { l2Book := some ⟨[⟨100000, 10⟩], [⟨100100, 10⟩]⟩, lastBookUpdateMs := -10000 }

/-- A request whose tokens are in neither configured set. -/
def reqBad : QuoteRequestE :=
  { token_in := "foo", token_out := "bar", amount_in := some 1, amount_out := none }

theorem F.add_finite (a b : ℚ) : F.add (.finite a) (.finite b) = .finite (a + b) := rfl

theorem F.mul_finite (a b : ℚ) : F.mul (.finite a) (.finite b) = .finite (a * b) := rfl

theorem F.sub_finite (a b : ℚ) : F.sub (.finite a) (.finite b) = .finite (a - b) := by
  simp [F.sub, F.neg, F.add, sub_eq_add_neg]

theorem F.leB_finite (a b : ℚ) : F.leB (.finite a) (.finite b) = decide (a ≤ b) := rfl

theorem F.ltB_finite (a b : ℚ) : F.ltB (.finite a) (.finite b) = decide (a < b) := rfl

theorem F.minF_finite (a b : ℚ) : F.minF (.finite a) (.finite b) = .finite (min a b) := by
  show (if F.ltB (.finite b) (.finite a) then F.finite b else F.finite a) = _
  rw [F.ltB_finite]
  split_ifs with h
  · simp only [decide_eq_true_eq] at h
    rw [min_eq_right h.le]
  · simp only [decide_eq_true_eq, not_lt] at h
    rw [min_eq_left h]

theorem F.div_finite (a b : ℚ) (hb : b ≠ 0) :
    F.div (.finite a) (.finite b) = .finite (a / b) := by
  simp [F.div, hb]

theorem F.falsy_finite (q : ℚ) : (F.finite q).falsy = decide (q = 0) := by
  by_cases h : q = 0 <;> simp [F.falsy, h]

theorem specTakes_cons (r : ℚ) (l : Level) (rest : List Level) :
    specTakes r (l :: rest) =
      (min l.sz r, l.px) :: specTakes (r - min l.sz r) rest := rfl

theorem specNotional_cons (r : ℚ) (l : Level) (rest : List Level) :
    specNotional r (l :: rest) =
      min l.sz r * l.px + specNotional (r - min l.sz r) rest := by
  simp [specNotional, specTakes_cons]

theorem specFilled_cons (r : ℚ) (l : Level) (rest : List Level) :
    specFilled r (l :: rest) =
      min l.sz r + specFilled (r - min l.sz r) rest := by
  simp [specFilled, specTakes_cons]

theorem specFilled_zero (levels : List Level) (h : ∀ l ∈ levels, 0 ≤ l.sz) :
    specFilled 0 levels = 0 := by
  induction levels with
  | nil => simp [specFilled, specTakes]
  | cons l rest ih =>
    have hsz : 0 ≤ l.sz := h l (List.mem_cons_self l rest)
    rw [specFilled_cons, min_eq_right hsz]
    simp [ih (fun x hx => h x (List.mem_cons_of_mem l hx))]

theorem specNotional_zero (levels : List Level) (h : ∀ l ∈ levels, 0 ≤ l.sz) :
    specNotional 0 levels = 0 := by
  induction levels with
  | nil => simp [specNotional, specTakes]
  | cons l rest ih =>
    have hsz : 0 ≤ l.sz := h l (List.mem_cons_self l rest)
    rw [specNotional_cons, min_eq_right hsz]
    simp [ih (fun x hx => h x (List.mem_cons_of_mem l hx))]

theorem walkLevels_spec (levels : List Level) (v r : ℚ) (hr : 0 ≤ r)
    (h : ∀ l ∈ levels, 0 ≤ l.sz) :
    walkLevels levels (.finite v) (.finite r) =
      (.finite (v + specNotional r levels), .finite (r - specFilled r levels)) := by
  induction levels generalizing v r with
  | nil => simp [walkLevels, specNotional, specFilled, specTakes]
  | cons l rest ih =>
    have hrest : ∀ x ∈ rest, 0 ≤ x.sz := fun x hx => h x (List.mem_cons_of_mem l hx)
    have htr : min l.sz r ≤ r := min_le_right _ _
    rw [walkLevels, F.minF_finite, F.mul_finite, F.add_finite, F.sub_finite, F.leB_finite]
    rw [specNotional_cons, specFilled_cons]
    by_cases hc : r - min l.sz r ≤ 0
    · have hz : r - min l.sz r = 0 := le_antisymm hc (by linarith)
      rw [hz]
      simp only [decide_eq_true_eq, if_pos le_rfl]
      rw [specNotional_zero rest hrest, specFilled_zero rest hrest]
      rw [Prod.mk.injEq]
      refine ⟨congrArg F.finite (by ring), congrArg F.finite ?_⟩
      rw [add_zero]
      exact hz.symm
    · simp only [decide_eq_true_eq, if_neg hc]
      have hr2 : 0 ≤ r - min l.sz r := by linarith [not_le.mp hc]
      rw [ih _ _ hr2 hrest]
      rw [Prod.mk.injEq]
      exact ⟨congrArg F.finite (by ring), congrArg F.finite (by ring)⟩

/-- C2: with the book present, getHedgePrice reports staleness exactly when
the age exceeds MAX_ORDERBOOK_AGE_MS; on a fresh book, it walks the levels
greedily (take the minimum of level size and remaining), reports
insufficient liquidity exactly when the residual after the walk exceeds
1e-6, and otherwise returns the accumulated notional divided by the
requested size. -/
theorem c2_vwap_correct (cfg : Config) (st : HLState) (now : ℤ) (side : Side)
    (book : L2Book) (size : ℚ) (hb : st.l2Book = some book)
    (hsz : ∀ l ∈ sideLevels book side, 0 ≤ l.sz) (hsize : 0 ≤ size) :
    (now - st.lastBookUpdateMs > cfg.MAX_ORDERBOOK_AGE_MS →
      getHedgePrice cfg st now side (.finite size) = .error .bookStale) ∧
    (now - st.lastBookUpdateMs ≤ cfg.MAX_ORDERBOOK_AGE_MS →
      (size - specFilled size (sideLevels book side) > 1 / 1000000 →
        getHedgePrice cfg st now side (.finite size) = .error .insufficientLiquidity) ∧
      (size - specFilled size (sideLevels book side) ≤ 1 / 1000000 → 0 < size →
        getHedgePrice cfg st now side (.finite size) =
          .ok (.finite (specNotional size (sideLevels book side) / size)))) := by
  have hlt : ¬(now - st.lastBookUpdateMs > cfg.MAX_ORDERBOOK_AGE_MS) ∨
      now - st.lastBookUpdateMs > cfg.MAX_ORDERBOOK_AGE_MS := em _ |>.symm
  refine ⟨fun hst => ?_, fun hfr => ⟨fun hres => ?_, fun hres hpos => ?_⟩⟩
  · simp [getHedgePrice, hb, hst]
  · simp only [getHedgePrice, hb]
    rw [if_neg (not_lt.mpr hfr)]
    rw [walkLevels_spec _ _ _ hsize hsz]
    dsimp only
    rw [F.ltB_finite, if_pos (by simpa using hres)]
  · simp only [getHedgePrice, hb]
    rw [if_neg (not_lt.mpr hfr)]
    rw [walkLevels_spec _ _ _ hsize hsz]
    dsimp only
    rw [F.ltB_finite, if_neg (by simpa using not_lt.mpr hres)]
    rw [F.div_finite _ _ (ne_of_gt hpos), zero_add]

/-- Witness for C2 at a concrete fresh book: two bid levels fully cover a
size of 2 BTC at price 100000. -/
theorem c2_vwap_correct_witness :
    getHedgePrice cfgD hlD 1500 .bid (.finite 2) = .ok (.finite 100000) := by
  have h := (c2_vwap_correct cfgD hlD 1500 .bid ⟨[⟨100000, 10⟩], [⟨100100, 10⟩]⟩ 2
    rfl (by decide) (by norm_num)).2 (by decide)
  have h2 := h.2 (by norm_num [specFilled, specTakes, sideLevels]) (by norm_num)
  rw [h2]
  norm_num [specNotional, specTakes, sideLevels]

/-- C10: on a fresh book with at least one level on the requested side, a
zero requested size raises no error and evaluates to NaN (0/0); the public
VWAP interface does not guard a zero size. -/
theorem c10_zero_size_nan (cfg : Config) (st : HLState) (now : ℤ) (side : Side)
    (book : L2Book) (l : Level) (rest : List Level) (hb : st.l2Book = some book)
    (hfresh : now - st.lastBookUpdateMs ≤ cfg.MAX_ORDERBOOK_AGE_MS)
    (hlv : sideLevels book side = l :: rest) (hnn : 0 ≤ l.sz) :
    getHedgePrice cfg st now side (.finite 0) = .ok .nan := by
  simp only [getHedgePrice, hb]
  rw [if_neg (not_lt.mpr hfresh), hlv]
  rw [walkLevels, F.minF_finite, min_eq_right hnn, F.mul_finite, F.add_finite,
    F.sub_finite, F.leB_finite]
  norm_num [F.ltB, F.div]

/-- Witness for C10 at the concrete fresh book. -/
theorem c10_zero_size_nan_witness :
    getHedgePrice cfgD hlD 1500 .bid (.finite 0) = .ok .nan :=
  c10_zero_size_nan cfgD hlD 1500 .bid ⟨[⟨100000, 10⟩], [⟨100100, 10⟩]⟩
    ⟨100000, 10⟩ [] rfl (by decide) rfl (by norm_num)

/-- C7: with a risk snapshot present, checkPositionCapacity accepts exactly
when the projected perpetual position (minus the size for SHORT, plus for
LONG) stays within MAX_BTC_INVENTORY in absolute value. -/
theorem c7_capacity_iff (cfg : Config) (inv : InvState) (dir : HedgeDir) (s : ℚ)
    (snap : RiskSnapshotE) (h : inv.riskSnapshot = some snap) :
    checkPositionCapacity cfg inv dir (.finite s) = true ↔
      |snap.btcPos + (if dir = .short then -s else s)| ≤ cfg.MAX_BTC_INVENTORY := by
  cases dir <;>
  · simp only [checkPositionCapacity, h, F.neg, F.add, F.absF, F.ltB]
    split_ifs with hc <;> simp_all [not_lt]

/-- Witness for C7: a 0.01 BTC short against a flat position is within the
5 BTC cap. -/
theorem c7_capacity_iff_witness :
    checkPositionCapacity cfgD invD .short (.finite (1 / 100)) = true :=
  (c7_capacity_iff cfgD invD .short (1 / 100) snapD rfl).mpr
    (by simp only [snapD, cfgD]; rw [abs_le]; norm_num)

/-- C4 counterexample: refresh the snapshot while emergency mode is on,
then clear emergency mode.  At call time emergency is off, the snapshot is
fresh, margin is fine and both can_buy and can_sell hold, so the claimed
sequence yields BOTH; getQuoteDirection returns the cached SELL_BTC_ONLY. -/
theorem c4_counterexample :
    getQuoteDirection invC 1500 = .SELL_BTC_ONLY ∧
    specQuoteDirection cfgD invC 1500 = .BOTH ∧
    invC.emergencyMode = false := by
  refine ⟨by decide, ?_, by decide⟩
  show specQuoteDirection cfgD invC 1500 = .BOTH
  norm_num [specQuoteDirection, invC, setEmergencyMode, refreshRiskSnapshot,
    invE, snapD, cfgD]

/-- C4 amended: getQuoteDirection checks the emergency flag and snapshot
freshness at call time, and otherwise returns the cached direction; when
the cache is coherent with the current emergency flag and snapshot (as it
is right after a successful refresh with no flag change since), the result
follows exactly the claimed decision sequence. -/
theorem c4_direction_of_coherent_cache (cfg : Config) (inv : InvState) (now : ℤ)
    (h : inv.cachedDirection = computeDirection cfg inv.emergencyMode inv.riskSnapshot) :
    getQuoteDirection inv now = specQuoteDirection cfg inv now := by
  unfold getQuoteDirection specQuoteDirection
  by_cases he : inv.emergencyMode
  · simp [he]
  · cases hs : inv.riskSnapshot with
    | none => simp [he, isSnapshotFresh, hs]
    | some s =>
      by_cases hf : now - s.updatedAt < 30000
      · simp [he, isSnapshotFresh, hs, hf, h, computeDirection]
      · simp [he, isSnapshotFresh, hs, hf]

/-- Witness for the amended C4 at a freshly refreshed state. -/
theorem c4_direction_of_coherent_cache_witness :
    getQuoteDirection invW 1500 = specQuoteDirection cfgD invW 1500 :=
  c4_direction_of_coherent_cache cfgD invW 1500 rfl

/-- C8 counterexample: with a stale book and tokens outside both configured
sets, getQuote rejects with orderbook_stale, not invalid_token_pair — the
freshness gate runs before token validation. -/
theorem c8_counterexample :
    getQuote cfgD hlStale invD 1500 reqBad = .ok (.reject .orderbook_stale) ∧
    cfgD.getBtcTokenConfig "foo" = none ∧ cfgD.getBtcTokenConfig "bar" = none ∧
    cfgD.getUsdTokenConfig "foo" = none ∧ cfgD.getUsdTokenConfig "bar" = none :=
  ⟨rfl, rfl, rfl, rfl, rfl⟩

/-- C8 amended: when the order book is fresh, a request whose tokens match
no BTC/USD configuration rejects with invalid_token_pair for every book
content and every risk-snapshot state (so neither is consulted); with a
stale book the freshness gate fires first instead. -/
theorem c8_invalid_pair_fresh (cfg : Config) (now lastMs : ℤ) (book : L2Book)
    (inv : InvState) (req : QuoteRequestE)
    (hfresh : now - lastMs ≤ cfg.MAX_ORDERBOOK_AGE_MS)
    (hinv : (cfg.getBtcTokenConfig req.token_in).orElse
        (fun _ => cfg.getBtcTokenConfig req.token_out) = none ∨
      (cfg.getUsdTokenConfig req.token_in).orElse
        (fun _ => cfg.getUsdTokenConfig req.token_out) = none) :
    getQuote cfg ⟨some book, lastMs⟩ inv now req = .ok (.reject .invalid_token_pair) := by
  have hf : isOrderbookFresh cfg ⟨some book, lastMs⟩ now = true := by
    simp [isOrderbookFresh, hfresh]
  unfold getQuote
  rw [hf]
  rcases hinv with h1 | h1
  · rw [h1]
    rcases h2 : (cfg.getUsdTokenConfig req.token_in).orElse
      (fun _ => cfg.getUsdTokenConfig req.token_out) with _ | c <;> rfl
  · rw [h1]
    rcases h2 : (cfg.getBtcTokenConfig req.token_in).orElse
      (fun _ => cfg.getBtcTokenConfig req.token_out) with _ | c <;> rfl

/-- Witness for the amended C8: fresh book, invalid tokens. -/
theorem c8_invalid_pair_fresh_witness :
    getQuote cfgD ⟨some ⟨[⟨100000, 10⟩], [⟨100100, 10⟩]⟩, 1000⟩ invD 1500 reqBad =
      .ok (.reject .invalid_token_pair) :=
  c8_invalid_pair_fresh cfgD 1500 1000 ⟨[⟨100000, 10⟩], [⟨100100, 10⟩]⟩ invD reqBad
    (by decide) (Or.inl rfl)


/-- Characterization of getHedgePrice on a fresh book via the greedy
specification walk. -/
theorem getHedgePrice_fresh_spec (cfg : Config) (st : HLState) (now : ℤ) (side : Side)
    (book : L2Book) (size : ℚ) (hb : st.l2Book = some book)
    (hfr : now - st.lastBookUpdateMs ≤ cfg.MAX_ORDERBOOK_AGE_MS)
    (hsz : ∀ l ∈ sideLevels book side, 0 ≤ l.sz) (hsize : 0 ≤ size) :
    getHedgePrice cfg st now side (.finite size) =
      if size - specFilled size (sideLevels book side) > 1 / 1000000 then
        .error .insufficientLiquidity
      else .ok (F.div (.finite (specNotional size (sideLevels book side))) (.finite size)) := by
  simp only [getHedgePrice, hb]
  rw [if_neg (not_lt.mpr hfr)]
  rw [walkLevels_spec _ _ _ hsize hsz]
  dsimp only
  rw [F.ltB_finite, zero_add]
  by_cases hres : size - specFilled size (sideLevels book side) > 1 / 1000000
  · rw [if_pos (by simpa using hres), if_pos hres]
  · rw [if_neg (by simpa using hres), if_neg hres]

/-- Staging of getQuote past the freshness gate and token validation. -/
theorem getQuote_csr (cfg : Config) (hl : HLState) (inv : InvState) (now : ℤ)
    (req : QuoteRequestE) (btcCfg usdCfg : TokenCfg)
    (hfresh : isOrderbookFresh cfg hl now = true)
    (hbtc : (cfg.getBtcTokenConfig req.token_in).orElse
      (fun _ => cfg.getBtcTokenConfig req.token_out) = some btcCfg)
    (husd : (cfg.getUsdTokenConfig req.token_in).orElse
      (fun _ => cfg.getUsdTokenConfig req.token_out) = some usdCfg) :
    getQuote cfg hl inv now req =
      match computeSizeAndRef cfg hl now (req.amount_in.isNone && req.amount_out.isSome)
        (cfg.isBtcToken req.token_in) (cfg.isBtcToken req.token_out)
        req.amount_in req.amount_out btcCfg.pow10 usdCfg.pow10 with
      | .error e => .error e
      | .ok (.inl r) => .ok (.reject r)
      | .ok (.inr p) => .ok (gateAndFinalize cfg inv now req
          (req.amount_in.isNone && req.amount_out.isSome)
          (cfg.isBtcToken req.token_in) (cfg.isBtcToken req.token_out)
          btcCfg usdCfg p.1 p.2) := by
  unfold getQuote
  rw [hfresh, hbtc, husd]
  simp


/-- C3: the quoter does throw.  On a fresh book that cannot cover the
requested size, getHedgePrice raises insufficient-liquidity, and the
part_003 getQuote, having no try/catch, propagates the exception to its
caller instead of returning a rejection value. -/
theorem c3_getQuote_throws :
    getQuote cfgD hlThin invD 1500 reqS1 = .error .insufficientLiquidity := by
  have hdiv : F.div (F.ofOpt (some (1000000 : ℚ))) (.finite 100000000) = .finite (1 / 100) := by
    rw [F.ofOpt, F.div_finite _ _ (by norm_num)]
    norm_num
  have hg : getHedgePrice cfgD hlThin 1500 .bid (.finite (1 / 100)) =
      .error .insufficientLiquidity := by
    rw [getHedgePrice_fresh_spec cfgD hlThin 1500 .bid ⟨[⟨100000, 1 / 2000⟩], []⟩ (1 / 100)
      rfl (by decide) (by intro l hl; simp [sideLevels] at hl; rw [hl]; norm_num)
      (by norm_num)]
    rw [if_pos (by norm_num [specFilled, specTakes, sideLevels, min_def])]
  have hcsr : computeSizeAndRef cfgD hlThin 1500 false true false (some 1000000) none
      (100000000 : ℚ) (1000000 : ℚ) = .error .insufficientLiquidity := by
    unfold computeSizeAndRef
    simp only [Bool.false_eq_true, if_false, if_true]
    rw [hdiv, hg]
  rw [getQuote_csr cfgD hlThin invD 1500 reqS1 ⟨"BTC", 8, 100000000⟩ ⟨"USDC", 6, 1000000⟩
    (by decide) rfl rfl]
  show (match computeSizeAndRef cfgD hlThin 1500 false true false (some 1000000) none
      (100000000 : ℚ) (1000000 : ℚ) with
    | Except.error e => (Except.error e : Except HLErr QuoteOutcome)
    | Except.ok (Sum.inl r) => Except.ok (QuoteOutcome.reject r)
    | Except.ok (Sum.inr p) => Except.ok (gateAndFinalize cfgD invD 1500 reqS1 false true false
        ⟨"BTC", 8, 100000000⟩ ⟨"USDC", 6, 1000000⟩ p.1 p.2)) = Except.error HLErr.insufficientLiquidity
  rw [hcsr]


/-- The only early rejections of the size-and-reference computation are
insufficient_liquidity and size_out_of_bounds. -/
theorem computeSizeAndRef_inl (cfg : Config) (hl : HLState) (now : ℤ)
    (iEO iBI iBO : Bool) (ain aout : Option ℚ) (bp up : ℚ) (r : Rejection)
    (h : computeSizeAndRef cfg hl now iEO iBI iBO ain aout bp up = .ok (.inl r)) :
    r = .insufficient_liquidity ∨ r = .size_out_of_bounds := by
  unfold computeSizeAndRef at h
  dsimp only at h
  iterate 8 (all_goals (try split at h))
  all_goals simp_all

set_option maxHeartbeats 1000000 in
/-- When the cached funding rate is 0 and the funding floor is negative,
the gate phase cannot reject for funding. -/
theorem gateAndFinalize_no_funding (cfg : Config) (inv : InvState) (now : ℤ)
    (req : QuoteRequestE) (iEO iBI iBO : Bool) (bc uc : TokenCfg) (szF refF : F)
    (hfr : getFundingRate inv = 0) (hM : cfg.MAX_NEGATIVE_FUNDING_RATE < 0) :
    gateAndFinalize cfg inv now req iEO iBI iBO bc uc szF refF ≠
      .reject .funding_rate_too_negative := by
  intro h
  unfold gateAndFinalize at h
  dsimp only at h
  iterate 10 (all_goals (try split at h))
  all_goals simp_all
  all_goals linarith

/-- C9: before any risk snapshot exists, getFundingRate returns 0, so with
a negative MAX_NEGATIVE_FUNDING_RATE the funding gate can never fire: no
request is rejected with funding_rate_too_negative in that state. -/
theorem c9_no_snapshot_funding (cfg : Config) (hl : HLState) (inv : InvState) (now : ℤ)
    (hsnap : inv.riskSnapshot = none) :
    getFundingRate inv = 0 ∧
    (cfg.MAX_NEGATIVE_FUNDING_RATE < 0 → ∀ req,
      getQuote cfg hl inv now req ≠ .ok (.reject .funding_rate_too_negative)) := by
  have hfr : getFundingRate inv = 0 := by simp [getFundingRate, hsnap]
  refine ⟨hfr, fun hM req h => ?_⟩
  unfold getQuote at h
  split at h
  · simp at h
  · split at h
    · dsimp only at h
      split at h
      · simp at h
      · next r heq =>
        simp only [Except.ok.injEq, QuoteOutcome.reject.injEq] at h
        subst h
        rcases computeSizeAndRef_inl _ _ _ _ _ _ _ _ _ _ _ heq with h1 | h1 <;> simp at h1
      · next p heq =>
        simp only [Except.ok.injEq] at h
        exact gateAndFinalize_no_funding _ _ _ _ _ _ _ _ _ _ _ hfr hM h
    · simp at h


/-- Witness for C9 at the default configuration (funding floor -0.0005),
the no-snapshot inventory state and the S1 request. -/
theorem c9_no_snapshot_funding_witness :
    getFundingRate invNone = 0 ∧
    getQuote cfgD hlD invNone 1500 reqS1 ≠ .ok (.reject .funding_rate_too_negative) :=
  ⟨(c9_no_snapshot_funding cfgD hlD invNone 1500 rfl).1,
   (c9_no_snapshot_funding cfgD hlD invNone 1500 rfl).2 (by norm_num [cfgD]) reqS1⟩


/-- C5: a realizable interleaving produces two executeHedge invocations for
one nonce.  The poll task snapshots its pending nonce and suspends on the
chain RPC; the settlement event fires during the suspension and hedges
(without touching the hedged-nonce set); the resumed poll sees the nonce as
used, finds it absent from the hedged set, and hedges again. -/
theorem c5_double_hedge_interleaving :
    HStep cfgD (.pollStart 50000 (fun _ => true)) sysD sysD1 ∧
    HStep cfgD (.eventSettle "h1" true) sysD1 sysD2 ∧
    HStep cfgD (.pollProcess true) sysD2 sysD3 ∧
    sysD3.hedgeCount "n1" = 2 ∧ sysD.hedgeCount "n1" = 0 := by
  refine ⟨?_, ?_, ?_, rfl, rfl⟩
  · exact HStep.pollStart 50000 (fun _ => true) sysD rfl
  · exact HStep.eventSettleHit "h1" ⟨"h1", "n1", 100000⟩ sysD1 rfl rfl
  · exact HStep.pollHedgeOk ⟨"n1", 100000⟩ [] sysD2 rfl rfl rfl

/-- C6 counterexample: the expiry sweep (time 140000 is past deadline
100000 plus the 30 s buffer) removes the pending record, yet a later
settlement event still matches the surviving quote-cache entry and hedges
the nonce. -/
theorem c6_counterexample :
    (140000 : ℤ) > 100000 + 30000 ∧
    HStep cfgD (.pollStart 140000 (fun _ => false)) sysD sysE1 ∧
    sysE1.pendingQuotes = [] ∧
    HStep cfgD .pollFinish sysE1 sysE2 ∧
    HStep cfgD (.eventSettle "h1" true) sysE2 sysE3 ∧
    sysE3.hedgeCount "n1" = 1 ∧ sysD.hedgeCount "n1" = 0 := by
  refine ⟨by norm_num, ?_, rfl, ?_, ?_, rfl, rfl⟩
  · exact HStep.pollStart 140000 (fun _ => false) sysD rfl
  · exact HStep.pollFinish sysE1 rfl
  · exact HStep.eventSettleHit "h1" ⟨"h1", "n1", 100000⟩ sysE2 rfl rfl

/-- Single-step preservation: once a nonce is out of the pending map and
out of any in-flight poll snapshot, a step that neither re-tracks it nor
settles it through the quote cache keeps it out and never hedges it. -/
theorem hstep_nonceGone_preserved (cfg : Config) (n : String) (s s2 : HedgeSys)
    (lbl : HLabel) (hstep : HStep cfg lbl s s2) (hg : nonceGone n s)
    (hav : avoidsNonce n lbl s) :
    nonceGone n s2 ∧ s2.hedgeCount n = s.hedgeCount n := by
  obtain ⟨hg1, hg2⟩ := hg
  cases hstep with
  | pollStart now used s h =>
    refine ⟨⟨?_, ?_⟩, rfl⟩
    · intro p hp
      exact hg1 p (List.mem_of_mem_filter hp)
    · intro results hres pr hpr
      cases hres
      obtain ⟨p, hp, hpe⟩ := List.mem_map.mp hpr
      rw [← hpe]
      exact hg1 p (List.mem_of_mem_filter hp)
  | pollSkipUnused p rest ok s h =>
    refine ⟨⟨hg1, ?_⟩, rfl⟩
    intro results hres pr hpr
    cases hres
    exact hg2 _ h pr (List.mem_cons_of_mem _ hpr)
  | pollAlreadyHedged p rest ok s h hh =>
    refine ⟨⟨?_, ?_⟩, rfl⟩
    · intro q hq
      exact hg1 q (List.mem_of_mem_filter hq)
    · intro results hres pr hpr
      cases hres
      exact hg2 _ h pr (List.mem_cons_of_mem _ hpr)
  | pollHedgeDisabled p rest ok s h hh hd =>
    refine ⟨⟨?_, ?_⟩, rfl⟩
    · intro q hq
      exact hg1 q (List.mem_of_mem_filter hq)
    · intro results hres pr hpr
      cases hres
      exact hg2 _ h pr (List.mem_cons_of_mem _ hpr)
  | pollHedgeOk p rest s h hh hd =>
    have hpn : p.nonce ≠ n := hg2 _ h (p, true) (List.mem_cons_self _ _)
    refine ⟨⟨?_, ?_⟩, ?_⟩
    · intro q hq
      exact hg1 q (List.mem_of_mem_filter hq)
    · intro results hres pr hpr
      cases hres
      exact hg2 _ h pr (List.mem_cons_of_mem _ hpr)
    · simp [bumpCount, Ne.symm hpn]
  | pollHedgeFail p rest s h hh hd =>
    have hpn : p.nonce ≠ n := hg2 _ h (p, true) (List.mem_cons_self _ _)
    refine ⟨⟨?_, ?_⟩, ?_⟩
    · intro q hq
      exact hg1 q (List.mem_of_mem_filter hq)
    · intro results hres pr hpr
      cases hres
      exact hg2 _ h pr (List.mem_cons_of_mem _ hpr)
    · simp [bumpCount, Ne.symm hpn]
  | pollFinish s h =>
    refine ⟨⟨hg1, ?_⟩, rfl⟩
    intro results hres
    cases hres
  | eventSettleDisabled quoteHash c ok s h hd =>
    have hcn : c.nonce ≠ n := hav.2 quoteHash ok rfl c h
    refine ⟨⟨?_, hg2⟩, rfl⟩
    intro q hq
    exact hg1 q (List.mem_of_mem_filter hq)
  | eventSettleHit quoteHash c s h hd =>
    have hcn : c.nonce ≠ n := hav.2 quoteHash true rfl c h
    refine ⟨⟨?_, hg2⟩, ?_⟩
    · intro q hq
      exact hg1 q (List.mem_of_mem_filter hq)
    · simp [bumpCount, Ne.symm hcn]
  | eventSettleHitFail quoteHash c s h hd =>
    have hcn : c.nonce ≠ n := hav.2 quoteHash false rfl c h
    refine ⟨⟨?_, hg2⟩, ?_⟩
    · intro q hq
      exact hg1 q (List.mem_of_mem_filter hq)
    · simp [bumpCount, Ne.symm hcn]
  | eventSettleMiss quoteHash s h =>
    exact ⟨⟨hg1, hg2⟩, rfl⟩
  | track nonce quoteHash deadlineMs s =>
    have hne : nonce ≠ n := by
      intro he
      exact hav.1 quoteHash deadlineMs (by rw [he])
    refine ⟨⟨?_, hg2⟩, rfl⟩
    intro q hq
    rcases List.mem_append.mp hq with hq1 | hq1
    · exact hg1 q (List.mem_of_mem_filter hq1)
    · rcases List.mem_singleton.mp hq1 with rfl
      exact hne
  | wsClose now s =>
    exact ⟨⟨hg1, hg2⟩, rfl⟩

/-- C6 amended: after the expiry sweep has removed a nonce (it is out of
the pending map and of any in-flight poll snapshot), no later sequence of
steps avoiding a re-track of the nonce and avoiding a settlement event that
resolves to it through the quote cache ever hedges it; in particular the
polling path alone never does.  The event path can still hedge it while its
quote-cache entry survives, as the counterexample shows. -/
theorem c6_expired_nonce_poll_terminal (cfg : Config) (n : String) (s s2 : HedgeSys)
    (hg : nonceGone n s)
    (htr : Relation.ReflTransGen (stepAvoiding cfg n) s s2) :
    nonceGone n s2 ∧ s2.hedgeCount n = s.hedgeCount n := by
  induction htr with
  | refl => exact ⟨hg, rfl⟩
  | tail hab hbc ih =>
    obtain ⟨hgb, hcb⟩ := ih
    obtain ⟨lbl, hstep, hav⟩ := hbc
    obtain ⟨hgc, hcc⟩ := hstep_nonceGone_preserved cfg n _ _ lbl hstep hgb hav
    exact ⟨hgc, hcc.trans hcb⟩


/-- Witness for the amended C6: from the swept state, one poll-finish step
changes nothing for the expired nonce. -/
theorem c6_expired_nonce_poll_terminal_witness :
    nonceGone "n1" sysE2 ∧ sysE2.hedgeCount "n1" = sysE1.hedgeCount "n1" := by
  refine c6_expired_nonce_poll_terminal cfgD "n1" sysE1 sysE2 ⟨?_, ?_⟩
    (Relation.ReflTransGen.single ⟨.pollFinish, HStep.pollFinish sysE1 rfl, ?_, ?_⟩)
  · intro p hp
    simp [sysE1, sysD] at hp
  · intro results hres pr hpr
    cases hres
    simp at hpr
  · intro h dl heq
    cases heq
  · intro h ok heq
    cases heq


/-- The walk keeps finite inputs finite. -/
theorem walkLevels_finite_pair (levels : List Level) (v r : ℚ) :
    ∃ v2 r2 : ℚ, walkLevels levels (.finite v) (.finite r) = (.finite v2, .finite r2) := by
  induction levels generalizing v r with
  | nil => exact ⟨v, r, rfl⟩
  | cons l rest ih =>
    rw [walkLevels, F.minF_finite, F.mul_finite, F.add_finite, F.sub_finite, F.leB_finite]
    by_cases hc : r - min l.sz r ≤ 0
    · exact ⟨_, _, by rw [if_pos (by simpa using hc)]⟩
    · rw [if_neg (by simpa using hc)]
      exact ih _ _

/-- A NaN remaining size stays NaN through the walk. -/
theorem walkLevels_nan_snd (levels : List Level) (v : F) :
    (walkLevels levels v .nan).2 = .nan := by
  induction levels generalizing v with
  | nil => rfl
  | cons l rest ih =>
    rw [walkLevels]
    show (walkLevels rest (F.add v (F.mul (F.minF (.finite l.sz) .nan) (.finite l.px)))
      (F.sub .nan (F.minF (.finite l.sz) .nan))).2 = .nan
    exact ih _

theorem F.div_nan (x : F) : F.div x .nan = .nan := by cases x <;> rfl

theorem F.ltB_nan (x : F) : F.ltB x .nan = false := by cases x <;> rfl

/-- A NaN requested size on a fresh book yields NaN, not an error. -/
theorem getHedgePrice_nan (cfg : Config) (st : HLState) (now : ℤ) (side : Side)
    (book : L2Book) (hb : st.l2Book = some book)
    (hfr : now - st.lastBookUpdateMs ≤ cfg.MAX_ORDERBOOK_AGE_MS) :
    getHedgePrice cfg st now side .nan = .ok .nan := by
  simp only [getHedgePrice, hb]
  rw [if_neg (not_lt.mpr hfr), walkLevels_nan_snd, F.ltB_nan]
  simp [F.div_nan]

/-- A zero requested size on a fresh book with nonnegative level sizes
yields NaN (0/0). -/
theorem getHedgePrice_zero (cfg : Config) (st : HLState) (now : ℤ) (side : Side)
    (book : L2Book) (hb : st.l2Book = some book)
    (hfr : now - st.lastBookUpdateMs ≤ cfg.MAX_ORDERBOOK_AGE_MS)
    (hsz : ∀ l ∈ sideLevels book side, 0 ≤ l.sz) :
    getHedgePrice cfg st now side (.finite 0) = .ok .nan := by
  simp only [getHedgePrice, hb]
  rw [if_neg (not_lt.mpr hfr), walkLevels_spec _ _ _ le_rfl hsz]
  rw [specNotional_zero _ hsz, specFilled_zero _ hsz]
  norm_num [F.ltB, F.div]

/-- A nonzero finite requested size on a fresh book yields either the
insufficient-liquidity error or a finite price. -/
theorem getHedgePrice_finite_result (cfg : Config) (st : HLState) (now : ℤ)
    (side : Side) (book : L2Book) (size : ℚ) (hb : st.l2Book = some book)
    (hfr : now - st.lastBookUpdateMs ≤ cfg.MAX_ORDERBOOK_AGE_MS) (hs : size ≠ 0) :
    getHedgePrice cfg st now side (.finite size) = .error .insufficientLiquidity ∨
    ∃ q : ℚ, getHedgePrice cfg st now side (.finite size) = .ok (.finite q) := by
  simp only [getHedgePrice, hb]
  rw [if_neg (not_lt.mpr hfr)]
  obtain ⟨v2, r2, hw⟩ := walkLevels_finite_pair (sideLevels book side) 0 size
  rw [hw]
  dsimp only
  by_cases hc : F.ltB (.finite (1 / 1000000)) (.finite r2) = true
  · exact Or.inl (by rw [if_pos hc])
  · refine Or.inr ⟨v2 / size, ?_⟩
    rw [if_neg hc, F.div_finite _ _ hs]


/-- Inversion of a successful size-and-reference computation: the
reference survives the falsy guard only as a finite nonzero price, and the
driving request amount was present. -/
theorem computeSizeAndRef_inr (cfg : Config) (hl : HLState) (now : ℤ)
    (iEO iBI iBO : Bool) (ain aout : Option ℚ) (bp up : ℚ) (szF refF : F)
    (book : L2Book) (hb : hl.l2Book = some book)
    (hfr : now - hl.lastBookUpdateMs ≤ cfg.MAX_ORDERBOOK_AGE_MS)
    (hbids : ∀ l ∈ book.bids, 0 ≤ l.sz) (hasks : ∀ l ∈ book.asks, 0 ≤ l.sz)
    (hbp : bp ≠ 0) (hup : up ≠ 0)
    (h : computeSizeAndRef cfg hl now iEO iBI iBO ain aout bp up = .ok (.inr (szF, refF)))
    (hnf : refF.falsy = false) :
    ∃ ref : ℚ, refF = .finite ref ∧ ref ≠ 0 ∧
      (iEO = true → ∃ rawOut : ℚ, aout = some rawOut) ∧
      (iEO = false → ∃ rawIn : ℚ, ain = some rawIn) := by
  cases iEO with
  | true =>
    cases iBO with
    | true =>
      simp only [computeSizeAndRef, if_true] at h
      cases aout with
      | none =>
        rw [show F.div (F.ofOpt none) (.finite bp) = .nan from rfl] at h
        rw [getHedgePrice_nan cfg hl now .ask book hb hfr] at h
        simp at h
        rw [← h.2] at hnf
        simp [F.falsy] at hnf
      | some a =>
        rw [show F.ofOpt (some a) = .finite a from rfl, F.div_finite _ _ hbp] at h
        by_cases ha : a / bp = 0
        · rw [ha, getHedgePrice_zero cfg hl now .ask book hb hfr hasks] at h
          simp at h
          rw [← h.2] at hnf
          simp [F.falsy] at hnf
        · rcases getHedgePrice_finite_result cfg hl now .ask book _ hb hfr ha with
            herr | ⟨pq, hok⟩
          · rw [herr] at h
            simp at h
          · rw [hok] at h
            simp only [Except.ok.injEq, Sum.inr.injEq, Prod.mk.injEq] at h
            refine ⟨pq, h.2.symm, ?_, fun _ => ⟨a, rfl⟩, by simp⟩
            rw [← h.2, F.falsy_finite] at hnf
            simpa using hnf
    | false =>
      simp only [computeSizeAndRef, if_true, Bool.false_eq_true, if_false] at h
      rcases getHedgePrice_finite_result cfg hl now .bid book (1 / 1000) hb hfr
        (by norm_num) with herr | ⟨pq, hok⟩
      · rw [herr] at h
        simp at h
      · rw [hok] at h
        dsimp only at h
        by_cases hpq : pq = 0
        · rw [if_pos (by rw [F.falsy_finite]; simpa using hpq)] at h
          simp at h
        · rw [if_neg (by rw [F.falsy_finite]; simpa using hpq)] at h
          cases aout with
          | none =>
            rw [show F.div (F.div (F.ofOpt none) (.finite up)) (.finite pq) = .nan
              from rfl] at h
            rw [show F.ltB .nan (.finite cfg.MIN_TRADE_SIZE_BTC) = false from rfl,
              F.ltB_nan] at h
            simp only [Bool.or_self, Bool.false_eq_true, if_false] at h
            rw [getHedgePrice_nan cfg hl now .bid book hb hfr] at h
            dsimp only at h
            rw [show (F.nan).falsy = true from rfl] at h
            simp at h
          | some a =>
            rw [show F.ofOpt (some a) = .finite a from rfl, F.div_finite _ _ hup,
              F.div_finite _ _ hpq] at h
            by_cases hbnd : (F.ltB (.finite (a / up / pq)) (.finite cfg.MIN_TRADE_SIZE_BTC) ||
                F.ltB (.finite cfg.MAX_TRADE_SIZE_BTC) (.finite (a / up / pq))) = true
            · rw [if_pos hbnd] at h
              simp at h
            · rw [if_neg hbnd] at h
              by_cases he : a / up / pq = 0
              · rw [he, getHedgePrice_zero cfg hl now .bid book hb hfr hbids] at h
                dsimp only at h
                rw [show (F.nan).falsy = true from rfl] at h
                simp at h
              · rcases getHedgePrice_finite_result cfg hl now .bid book _ hb hfr he with
                  herr | ⟨q, hok2⟩
                · rw [herr] at h
                  simp at h
                · rw [hok2] at h
                  dsimp only at h
                  by_cases hq : q = 0
                  · rw [if_pos (by rw [F.falsy_finite]; simpa using hq)] at h
                    simp at h
                  · rw [if_neg (by rw [F.falsy_finite]; simpa using hq)] at h
                    simp only [Except.ok.injEq, Sum.inr.injEq, Prod.mk.injEq] at h
                    exact ⟨q, h.2.symm, hq, fun _ => ⟨a, rfl⟩, by simp⟩
  | false =>
    cases iBI with
    | true =>
      simp only [computeSizeAndRef, Bool.false_eq_true, if_false, if_true] at h
      cases ain with
      | none =>
        rw [show F.div (F.ofOpt none) (.finite bp) = .nan from rfl] at h
        rw [getHedgePrice_nan cfg hl now .bid book hb hfr] at h
        simp at h
        rw [← h.2] at hnf
        simp [F.falsy] at hnf
      | some a =>
        rw [show F.ofOpt (some a) = .finite a from rfl, F.div_finite _ _ hbp] at h
        by_cases ha : a / bp = 0
        · rw [ha, getHedgePrice_zero cfg hl now .bid book hb hfr hbids] at h
          simp at h
          rw [← h.2] at hnf
          simp [F.falsy] at hnf
        · rcases getHedgePrice_finite_result cfg hl now .bid book _ hb hfr ha with
            herr | ⟨pq, hok⟩
          · rw [herr] at h
            simp at h
          · rw [hok] at h
            simp only [Except.ok.injEq, Sum.inr.injEq, Prod.mk.injEq] at h
            refine ⟨pq, h.2.symm, ?_, by simp, fun _ => ⟨a, rfl⟩⟩
            rw [← h.2, F.falsy_finite] at hnf
            simpa using hnf
    | false =>
      simp only [computeSizeAndRef, Bool.false_eq_true, if_false] at h
      rcases getHedgePrice_finite_result cfg hl now .ask book (1 / 1000) hb hfr
        (by norm_num) with herr | ⟨pq, hok⟩
      · rw [herr] at h
        simp at h
      · rw [hok] at h
        dsimp only at h
        by_cases hpq : pq = 0
        · rw [if_pos (by rw [F.falsy_finite]; simpa using hpq)] at h
          simp at h
        · rw [if_neg (by rw [F.falsy_finite]; simpa using hpq)] at h
          cases ain with
          | none =>
            rw [show F.div (F.div (F.ofOpt none) (.finite up)) (.finite pq) = .nan
              from rfl] at h
            rw [show F.ltB .nan (.finite cfg.MIN_TRADE_SIZE_BTC) = false from rfl,
              F.ltB_nan] at h
            simp only [Bool.or_self, Bool.false_eq_true, if_false] at h
            rw [getHedgePrice_nan cfg hl now .ask book hb hfr] at h
            dsimp only at h
            rw [show (F.nan).falsy = true from rfl] at h
            simp at h
          | some a =>
            rw [show F.ofOpt (some a) = .finite a from rfl, F.div_finite _ _ hup,
              F.div_finite _ _ hpq] at h
            by_cases hbnd : (F.ltB (.finite (a / up / pq)) (.finite cfg.MIN_TRADE_SIZE_BTC) ||
                F.ltB (.finite cfg.MAX_TRADE_SIZE_BTC) (.finite (a / up / pq))) = true
            · rw [if_pos hbnd] at h
              simp at h
            · rw [if_neg hbnd] at h
              by_cases he : a / up / pq = 0
              · rw [he, getHedgePrice_zero cfg hl now .ask book hb hfr hasks] at h
                dsimp only at h
                rw [show (F.nan).falsy = true from rfl] at h
                simp at h
              · rcases getHedgePrice_finite_result cfg hl now .ask book _ hb hfr he with
                  herr | ⟨q, hok2⟩
                · rw [herr] at h
                  simp at h
                · rw [hok2] at h
                  dsimp only at h
                  by_cases hq : q = 0
                  · rw [if_pos (by rw [F.falsy_finite]; simpa using hq)] at h
                    simp at h
                  · rw [if_neg (by rw [F.falsy_finite]; simpa using hq)] at h
                    simp only [Except.ok.injEq, Sum.inr.injEq, Prod.mk.injEq] at h
                    exact ⟨q, h.2.symm, hq, by simp, fun _ => ⟨a, rfl⟩⟩


theorem F.ceilF_finite (a : ℚ) : F.ceilF (.finite a) = .finite (Int.ceil a) := rfl

theorem F.floorF_finite (a : ℚ) : F.floorF (.finite a) = .finite (Int.floor a) := rfl

set_option maxHeartbeats 1000000 in
/-- Inversion of a successful gate phase: the reference was not falsy and
the quote is exactly the finalize step's output. -/
theorem gateAndFinalize_ok (cfg : Config) (inv : InvState) (now : ℤ)
    (req : QuoteRequestE) (iEO iBI iBO : Bool) (bc uc : TokenCfg) (szF refF : F)
    (q : QuoteResultE)
    (h : gateAndFinalize cfg inv now req iEO iBI iBO bc uc szF refF = .ok q) :
    refF.falsy = false ∧ q = finalizeQuote cfg req iEO iBI iBO bc uc szF refF := by
  unfold gateAndFinalize at h
  dsimp only at h
  iterate 8 (all_goals (try split at h))
  all_goals simp_all


/-- C1: every quote that passes all gates prices off the computed reference
at ref times (1 - spread) when the solver buys BTC (BTC is token_in) and
ref times (1 + spread) when it sells, with spread TARGET_SPREAD_BIPS/10000;
an exact-in request returns floor(amount_out times the out-token pow10) and
an exact-out request returns ceil(amount_in times the in-token pow10). -/
theorem c1_spread_and_rounding (cfg : Config) (hl : HLState) (inv : InvState) (now : ℤ)
    (req : QuoteRequestE) (q : QuoteResultE) (book : L2Book) (btcCfg usdCfg : TokenCfg)
    (hq : getQuote cfg hl inv now req = .ok (.ok q))
    (hb : hl.l2Book = some book)
    (hbids : ∀ l ∈ book.bids, 0 ≤ l.sz) (hasks : ∀ l ∈ book.asks, 0 ≤ l.sz)
    (hbtc : (cfg.getBtcTokenConfig req.token_in).orElse
      (fun _ => cfg.getBtcTokenConfig req.token_out) = some btcCfg)
    (husd : (cfg.getUsdTokenConfig req.token_in).orElse
      (fun _ => cfg.getUsdTokenConfig req.token_out) = some usdCfg)
    (hbp : 0 < btcCfg.pow10) (hup : 0 < usdCfg.pow10)
    (hs0 : 0 ≤ cfg.TARGET_SPREAD_BIPS) (hs1 : cfg.TARGET_SPREAD_BIPS < 10000) :
    ∃ (sz : F) (ref : ℚ), ref ≠ 0 ∧
      computeSizeAndRef cfg hl now (req.amount_in.isNone && req.amount_out.isSome)
        (cfg.isBtcToken req.token_in) (cfg.isBtcToken req.token_out)
        req.amount_in req.amount_out btcCfg.pow10 usdCfg.pow10 = .ok (.inr (sz, .finite ref)) ∧
      (if req.amount_in.isNone && req.amount_out.isSome then
        ∃ rawOut : ℚ, req.amount_out = some rawOut ∧
          q.amount_in = some (.finite ((Int.ceil
            ((if cfg.isBtcToken req.token_in then
                rawOut / (if cfg.isBtcToken req.token_out then btcCfg.pow10 else usdCfg.pow10) /
                  (ref * (1 - cfg.TARGET_SPREAD_BIPS / 10000))
              else
                rawOut / (if cfg.isBtcToken req.token_out then btcCfg.pow10 else usdCfg.pow10) *
                  (ref * (1 + cfg.TARGET_SPREAD_BIPS / 10000))) *
             (if cfg.isBtcToken req.token_in then btcCfg.pow10 else usdCfg.pow10)) : ℤ) : ℚ)) ∧
          q.isExactOut = true
      else
        ∃ rawIn : ℚ, req.amount_in = some rawIn ∧
          q.amount_out = some (.finite ((Int.floor
            ((if cfg.isBtcToken req.token_in then
                rawIn / (if cfg.isBtcToken req.token_in then btcCfg.pow10 else usdCfg.pow10) *
                  (ref * (1 - cfg.TARGET_SPREAD_BIPS / 10000))
              else
                rawIn / (if cfg.isBtcToken req.token_in then btcCfg.pow10 else usdCfg.pow10) /
                  (ref * (1 + cfg.TARGET_SPREAD_BIPS / 10000))) *
             (if cfg.isBtcToken req.token_out then btcCfg.pow10 else usdCfg.pow10)) : ℤ) : ℚ)) ∧
          q.isExactOut = false) := by
  have hfresh : isOrderbookFresh cfg hl now = true := by
    cases hfb : isOrderbookFresh cfg hl now with
    | true => rfl
    | false => simp [getQuote, hfb] at hq
  have hfr : now - hl.lastBookUpdateMs ≤ cfg.MAX_ORDERBOOK_AGE_MS := by
    simpa [isOrderbookFresh, hb] using hfresh
  rw [getQuote_csr cfg hl inv now req btcCfg usdCfg hfresh hbtc husd] at hq
  rcases hc : computeSizeAndRef cfg hl now (req.amount_in.isNone && req.amount_out.isSome)
      (cfg.isBtcToken req.token_in) (cfg.isBtcToken req.token_out)
      req.amount_in req.amount_out btcCfg.pow10 usdCfg.pow10 with e | sr
  · rw [hc] at hq
    simp at hq
  · rcases sr with r | p
    · rw [hc] at hq
      simp at hq
    · rcases p with ⟨szF, refF⟩
      rw [hc] at hq
      dsimp only at hq
      rw [Except.ok.injEq] at hq
      obtain ⟨hnf, hqq⟩ := gateAndFinalize_ok cfg inv now req _ _ _ btcCfg usdCfg
        szF refF q hq
      obtain ⟨ref, hrefF, href0, hout, hin⟩ := computeSizeAndRef_inr cfg hl now
        _ _ _ req.amount_in req.amount_out btcCfg.pow10 usdCfg.pow10 szF refF book
        hb hfr hbids hasks (ne_of_gt hbp) (ne_of_gt hup) hc hnf
      have h1m : (1 : ℚ) - cfg.TARGET_SPREAD_BIPS / 10000 ≠ 0 := by
        have : cfg.TARGET_SPREAD_BIPS / 10000 < 1 := by linarith
        linarith
      have h1p : (1 : ℚ) + cfg.TARGET_SPREAD_BIPS / 10000 ≠ 0 := by
        have : (0 : ℚ) ≤ cfg.TARGET_SPREAD_BIPS / 10000 := by positivity
        linarith
      have hpowOut : (if cfg.isBtcToken req.token_out = true then btcCfg.pow10
          else usdCfg.pow10) ≠ 0 := by
        split
        · exact ne_of_gt hbp
        · exact ne_of_gt hup
      refine ⟨szF, ref, href0, by rw [← hrefF], ?_⟩
      cases hEO : (req.amount_in.isNone && req.amount_out.isSome) with
      | true =>
        rw [if_pos rfl]
        obtain ⟨rawOut, hro⟩ := hout hEO
        refine ⟨rawOut, hro, ?_, by rw [hqq, hEO]; simp [finalizeQuote]⟩
        rw [hqq, hEO]
        cases hBI : cfg.isBtcToken req.token_in with
        | true =>
          simp only [finalizeQuote, if_true, hro, hrefF, hBI]
          rw [show F.ofOpt (some rawOut) = .finite rawOut from rfl]
          rw [F.div_finite _ _ hpowOut, F.mul_finite,
            F.div_finite _ _ (mul_ne_zero href0 h1m), F.mul_finite, F.ceilF_finite]
        | false =>
          simp only [finalizeQuote, if_true, hro, hrefF, hBI, Bool.false_eq_true, if_false]
          rw [show F.ofOpt (some rawOut) = .finite rawOut from rfl]
          rw [F.div_finite _ _ hpowOut, F.mul_finite, F.mul_finite, F.mul_finite,
            F.ceilF_finite]
      | false =>
        rw [if_neg (by simp)]
        obtain ⟨rawIn, hri⟩ := hin hEO
        refine ⟨rawIn, hri, ?_, by rw [hqq, hEO]; simp [finalizeQuote]⟩
        rw [hqq, hEO]
        cases hBI : cfg.isBtcToken req.token_in with
        | true =>
          simp only [finalizeQuote, Bool.false_eq_true, if_false, hri, hrefF, hBI, if_true]
          rw [show F.ofOpt (some rawIn) = .finite rawIn from rfl]
          rw [F.div_finite _ _ (ne_of_gt hbp), F.mul_finite, F.mul_finite, F.mul_finite,
            F.floorF_finite]
        | false =>
          simp only [finalizeQuote, Bool.false_eq_true, if_false, hri, hrefF, hBI]
          rw [show F.ofOpt (some rawIn) = .finite rawIn from rfl]
          rw [F.div_finite _ _ (ne_of_gt hup), F.mul_finite,
            F.div_finite _ _ (mul_ne_zero href0 h1p), F.mul_finite, F.floorF_finite]


/-- Concrete evaluation of the S1 scenario. -/
theorem getQuote_S1 : getQuote cfgD hlD invD 1500 reqS1 = .ok (.ok qS1) := by
  rw [getQuote_csr cfgD hlD invD 1500 reqS1 ⟨"BTC", 8, 100000000⟩ ⟨"USDC", 6, 1000000⟩
    (by decide) rfl rfl]
  have hdiv : F.div (F.ofOpt (some (1000000 : ℚ))) (.finite 100000000) = .finite (1 / 100) := by
    rw [F.ofOpt, F.div_finite _ _ (by norm_num)]
    norm_num
  have hg : getHedgePrice cfgD hlD 1500 .bid (.finite (1 / 100)) = .ok (.finite 100000) := by
    rw [getHedgePrice_fresh_spec cfgD hlD 1500 .bid ⟨[⟨100000, 10⟩], [⟨100100, 10⟩]⟩ (1 / 100)
      rfl (by decide) (by intro l hl; simp [sideLevels] at hl; rw [hl]; norm_num)
      (by norm_num)]
    rw [if_neg (by norm_num [specFilled, specTakes, sideLevels, min_def])]
    rw [F.div_finite _ _ (by norm_num)]
    norm_num [specNotional, specTakes, sideLevels, min_def]
  have hcsr : computeSizeAndRef cfgD hlD 1500 false true false (some 1000000) none
      (100000000 : ℚ) (1000000 : ℚ) = .ok (.inr (.finite (1 / 100), .finite 100000)) := by
    unfold computeSizeAndRef
    simp only [Bool.false_eq_true, if_false, if_true]
    rw [hdiv, hg]
  show (match computeSizeAndRef cfgD hlD 1500 false true false (some 1000000) none
      (100000000 : ℚ) (1000000 : ℚ) with
    | Except.error e => (Except.error e : Except HLErr QuoteOutcome)
    | Except.ok (Sum.inl r) => Except.ok (QuoteOutcome.reject r)
    | Except.ok (Sum.inr p) => Except.ok (gateAndFinalize cfgD invD 1500 reqS1 false true false
        ⟨"BTC", 8, 100000000⟩ ⟨"USDC", 6, 1000000⟩ p.1 p.2)) = Except.ok (QuoteOutcome.ok qS1)
  rw [hcsr]
  dsimp only
  congr 1
  unfold gateAndFinalize
  rw [if_neg (by norm_num [F.falsy])]
  rw [if_neg (by norm_num [F.ltB, cfgD])]
  dsimp only
  rw [if_neg (by decide)]
  rw [if_neg (by decide)]
  rw [if_neg (by norm_num [checkPositionCapacity, invD, snapD, cfgD, F.add, F.neg, F.absF,
    F.ltB, abs_le])]
  rw [if_neg (by norm_num [getFundingRate, invD, snapD, cfgD])]
  unfold finalizeQuote
  rw [if_neg (by decide)]
  dsimp only [reqS1]
  simp only [reduceIte]
  rw [show F.ofOpt (some (1000000 : ℚ)) = .finite 1000000 from rfl]
  rw [F.div_finite _ _ (by norm_num : (100000000 : ℚ) ≠ 0), F.mul_finite, F.mul_finite,
    F.mul_finite, F.floorF_finite]
  show QuoteOutcome.ok _ = QuoteOutcome.ok qS1
  congr 1
  unfold qS1
  congr 2
  norm_num [cfgD]


/-- Witness for C1 at scenario S1: exact-in 0.01 BTC against a 100000 bid,
2 percent spread, amount_out floor(0.01 x 100000 x 0.98 x 1e6) = 980000000. -/
theorem c1_spread_and_rounding_witness :
    getQuote cfgD hlD invD 1500 reqS1 = .ok (.ok qS1) ∧
    (∃ (sz : F) (ref : ℚ), ref ≠ 0 ∧
      computeSizeAndRef cfgD hlD 1500 (reqS1.amount_in.isNone && reqS1.amount_out.isSome)
        (cfgD.isBtcToken reqS1.token_in) (cfgD.isBtcToken reqS1.token_out)
        reqS1.amount_in reqS1.amount_out (TokenCfg.mk "BTC" 8 100000000).pow10
        (TokenCfg.mk "USDC" 6 1000000).pow10 = .ok (.inr (sz, .finite ref)) ∧
      (if reqS1.amount_in.isNone && reqS1.amount_out.isSome then
        ∃ rawOut : ℚ, reqS1.amount_out = some rawOut ∧
          qS1.amount_in = some (.finite ((Int.ceil
            ((if cfgD.isBtcToken reqS1.token_in then
                rawOut / (if cfgD.isBtcToken reqS1.token_out then
                    (TokenCfg.mk "BTC" 8 100000000).pow10
                  else (TokenCfg.mk "USDC" 6 1000000).pow10) /
                  (ref * (1 - cfgD.TARGET_SPREAD_BIPS / 10000))
              else
                rawOut / (if cfgD.isBtcToken reqS1.token_out then
                    (TokenCfg.mk "BTC" 8 100000000).pow10
                  else (TokenCfg.mk "USDC" 6 1000000).pow10) *
                  (ref * (1 + cfgD.TARGET_SPREAD_BIPS / 10000))) *
             (if cfgD.isBtcToken reqS1.token_in then (TokenCfg.mk "BTC" 8 100000000).pow10
              else (TokenCfg.mk "USDC" 6 1000000).pow10)) : ℤ) : ℚ)) ∧
          qS1.isExactOut = true
      else
        ∃ rawIn : ℚ, reqS1.amount_in = some rawIn ∧
          qS1.amount_out = some (.finite ((Int.floor
            ((if cfgD.isBtcToken reqS1.token_in then
                rawIn / (if cfgD.isBtcToken reqS1.token_in then
                    (TokenCfg.mk "BTC" 8 100000000).pow10
                  else (TokenCfg.mk "USDC" 6 1000000).pow10) *
                  (ref * (1 - cfgD.TARGET_SPREAD_BIPS / 10000))
              else
                rawIn / (if cfgD.isBtcToken reqS1.token_in then
                    (TokenCfg.mk "BTC" 8 100000000).pow10
                  else (TokenCfg.mk "USDC" 6 1000000).pow10) /
                  (ref * (1 + cfgD.TARGET_SPREAD_BIPS / 10000))) *
             (if cfgD.isBtcToken reqS1.token_out then (TokenCfg.mk "BTC" 8 100000000).pow10
              else (TokenCfg.mk "USDC" 6 1000000).pow10)) : ℤ) : ℚ)) ∧
          qS1.isExactOut = false)) :=
  ⟨getQuote_S1,
   c1_spread_and_rounding cfgD hlD invD 1500 reqS1 qS1 ⟨[⟨100000, 10⟩], [⟨100100, 10⟩]⟩
     ⟨"BTC", 8, 100000000⟩ ⟨"USDC", 6, 1000000⟩ getQuote_S1 rfl
     (by intro l hl; simp at hl; rw [hl]; norm_num)
     (by intro l hl; simp at hl; rw [hl]; norm_num)
     rfl rfl (by norm_num) (by norm_num)
     (by norm_num [cfgD]) (by norm_num [cfgD])⟩


end Solver
